import Mathlib

/-!
Shallow embedding of the pomodoro visualizer (src/main.rs).

Machine floats (`f64`) are modelled as real numbers: every numeric value the
program computes on its clock and cursors is an integer of magnitude at most a
few thousand, on which `f64` addition, subtraction, remainder and comparison
are exact, so the real-number model is faithful for those paths.  The sine
amplitude path uses `Real.sin` for `f64::sin`.
-/

open scoped BigOperators

set_option maxRecDepth 8000

/-- `const WINDOW_SIZE: usize = 1800`. -/
def WINDOW_SIZE : ℕ := 1800

/-- The `SinSignal` struct: fields `x` (cursor), `interval` (step), `period`,
`scale`, all `f64`, modelled as reals. -/
structure SinSignal where
  x : ℝ
  interval : ℝ
  period : ℝ
  scale : ℝ

/-- `SinSignal::new(interval, period, scale)`: cursor starts at `0.0`. -/
def SinSignal.new (interval period scale : ℝ) : SinSignal :=
  { x := 0, interval := interval, period := period, scale := scale }

/-- The `point` computed inside `SinSignal::next` (before the cursor advance):
`adjusted_x = x - WINDOW_SIZE`; if `x < 0` the point is `(x, 0.0)`, otherwise
`(x, (adjusted_x * 2.0 * PI / period).sin() * scale)`. -/
noncomputable def SinSignal.point (s : SinSignal) : ℝ × ℝ :=
  let adjusted_x := s.x - (WINDOW_SIZE : ℝ)
  if s.x < 0 then (s.x, 0)
  else (s.x, Real.sin (adjusted_x * 2 * Real.pi / s.period) * s.scale)

/-- `<SinSignal as Iterator>::next`: returns `Some(point)` and advances the
cursor by `interval`.  The `Option` mirrors Rust's `Option<Self::Item>`;
the returned pair is (yielded item, post-state). -/
noncomputable def SinSignal.next (s : SinSignal) : Option (ℝ × ℝ) × SinSignal :=
  (some s.point, { s with x := s.x + s.interval })

/-- `signal.by_ref().take(n).collect()`: draw up to `n` items, stopping early
if the iterator yields `None` (it never does here); returns the collected
items and the advanced iterator. -/
noncomputable def SinSignal.takeSamples : ℕ → SinSignal → List (ℝ × ℝ) × SinSignal
  | 0, s => ([], s)
  | n + 1, s =>
    match s.next with
    | (some p, s₁) =>
      let r := SinSignal.takeSamples n s₁
      (p :: r.1, r.2)
    | (none, s₁) => ([], s₁)

/-- The signal state with cursor `t` and the given parameters with step `1.0`
(the only step the program ever uses). -/
def signalAt (period scale : ℝ) (t : ℝ) : SinSignal :=
  { x := t, interval := 1, period := period, scale := scale }

/-- The `App` struct: three signals, three data windows, and the clock
`window: [f64; 2]` modelled as a pair (index 0, index 1). -/
structure App where
  signal1 : SinSignal
  data1 : List (ℝ × ℝ)
  signal2 : SinSignal
  data2 : List (ℝ × ℝ)
  signal3 : SinSignal
  data3 : List (ℝ × ℝ)
  window : ℝ × ℝ

/-- `App::new()`: `one_minutes = 60.0`; three signals with interval `1.0`,
periods `60*5`, `60*25`, `60*30` and scales `18`, `15`, `10`; each data window
collects the signal's first `WINDOW_SIZE` samples; clock `[0.0, 1800.0]`. -/
noncomputable def App.new : App :=
  let one_minutes : ℝ := 60
  let r1 := SinSignal.takeSamples WINDOW_SIZE (SinSignal.new 1 (one_minutes * 5) 18)
  let r2 := SinSignal.takeSamples WINDOW_SIZE (SinSignal.new 1 (one_minutes * 25) 15)
  let r3 := SinSignal.takeSamples WINDOW_SIZE (SinSignal.new 1 (one_minutes * 30) 10)
  { signal1 := r1.2, data1 := r1.1
    signal2 := r2.2, data2 := r2.1
    signal3 := r3.2, data3 := r3.1
    window := ((0 : ℝ), (WINDOW_SIZE : ℝ)) }

/-- `App::on_tick()`: each window drops its first element (`remove(0)`) and
appends the one sample drawn by `extend(signal.by_ref().take(1))`; both clock
bounds gain `1.0`. -/
noncomputable def App.on_tick (a : App) : App :=
  let r1 := SinSignal.takeSamples 1 a.signal1
  let r2 := SinSignal.takeSamples 1 a.signal2
  let r3 := SinSignal.takeSamples 1 a.signal3
  { signal1 := r1.2, data1 := a.data1.tail ++ r1.1
    signal2 := r2.2, data2 := a.data2.tail ++ r2.1
    signal3 := r3.2, data3 := a.data3.tail ++ r3.1
    window := (a.window.1 + 1, a.window.2 + 1) }

open Classical in
/-- One pass of `run_app`'s state update when the tick interval has elapsed:
`app.on_tick(); if app.window[1] == 3600.0, app = App::new()`. -/
noncomputable def tickStep (a : App) : App :=
  let a₁ := a.on_tick
  if a₁.window.2 = 3600 then App.new else a₁

/-- The loop state after `n` elapsed tick intervals of `run_app`. -/
noncomputable def runTicks : ℕ → App → App
  | 0, a => a
  | n + 1, a => tickStep (runTicks n a)

/-- Closed form for the app state after `m` un-reset ticks: every signal cursor
is at `WINDOW_SIZE + m`, window `j` holds the samples taken at cursors
`m + j`, and the clock is `[m, WINDOW_SIZE + m]`. -/
noncomputable def appAt (m : ℕ) : App :=
  { signal1 := signalAt 300 18 ((WINDOW_SIZE + m : ℕ) : ℝ)
    data1 := (List.range WINDOW_SIZE).map
      (fun (j : ℕ) => (signalAt 300 18 ((m + j : ℕ) : ℝ)).point)
    signal2 := signalAt 1500 15 ((WINDOW_SIZE + m : ℕ) : ℝ)
    data2 := (List.range WINDOW_SIZE).map
      (fun (j : ℕ) => (signalAt 1500 15 ((m + j : ℕ) : ℝ)).point)
    signal3 := signalAt 1800 10 ((WINDOW_SIZE + m : ℕ) : ℝ)
    data3 := (List.range WINDOW_SIZE).map
      (fun (j : ℕ) => (signalAt 1800 10 ((m + j : ℕ) : ℝ)).point)
    window := (((m : ℕ) : ℝ), ((WINDOW_SIZE + m : ℕ) : ℝ)) }

/-- Rust string padding directive `0>2` (fill `'0'`, right-align, width 2)
applied by `format!` to its first argument. -/
def padTwo (str : String) : String :=
  if str.length < 2 then String.mk (List.replicate (2 - str.length) '0') ++ str
  else str

/-- The elapsed-time label built in `ui`:
`format!("0>2 : plain", (window[1] % 1800.0 / 60.0).floor(), (window[1] % 60.0).floor())`,
modelled at the integer clock values the program produces.  For a nonnegative
integer-valued `f64` value `e`, `e % 1800.0` and `e % 60.0` are exact,
`(e % 1800.0 / 60.0).floor()` equals the natural-number division
`e % 1800 / 60`, and Rust's shortest-round-trip `Display` of an integer-valued
`f64` is its decimal numeral, so the label is a function of `e : ℕ`.
Only the first format argument carries the width-2 zero padding. -/
def uiLabel (e : ℕ) : String :=
  padTwo (toString (e % 1800 / 60)) ++ ":" ++ toString (e % 60)


theorem SinSignal.next_eq (s : SinSignal) :
    s.next = (some s.point, { s with x := s.x + s.interval }) := rfl

theorem SinSignal.point_fst (s : SinSignal) : s.point.1 = s.x := by
  unfold SinSignal.point
  by_cases h : s.x < 0 <;> simp [h]

theorem SinSignal.point_of_nonneg (s : SinSignal) (h : 0 ≤ s.x) :
    s.point = (s.x, Real.sin ((s.x - (WINDOW_SIZE : ℝ)) * 2 * Real.pi / s.period) * s.scale) := by
  unfold SinSignal.point
  simp [not_lt.mpr h]

theorem SinSignal.point_of_neg (s : SinSignal) (h : s.x < 0) :
    s.point = (s.x, 0) := by
  unfold SinSignal.point
  simp [h]

theorem SinSignal.takeSamples_fst (k : ℕ) (s : SinSignal) :
    (SinSignal.takeSamples k s).1 =
      (List.range k).map
        (fun (j : ℕ) => ({ s with x := s.x + (j : ℝ) * s.interval } : SinSignal).point) := by
  induction k generalizing s with
  | zero => simp [SinSignal.takeSamples]
  | succ n ih =>
    rw [SinSignal.takeSamples]
    simp only [SinSignal.next]
    rw [ih]
    rw [List.range_succ_eq_map]
    simp only [List.map_cons, List.map_map]
    congr 1
    · show s.point = ({ s with x := s.x + ((0 : ℕ) : ℝ) * s.interval } : SinSignal).point
      congr 1
      simp
    · apply List.map_congr_left
      intro j _
      show ({ s with x := s.x + s.interval + (j : ℝ) * s.interval } : SinSignal).point
          = ({ s with x := s.x + ((j + 1 : ℕ) : ℝ) * s.interval } : SinSignal).point
      congr 1
      push_cast
      ring_nf

theorem SinSignal.takeSamples_snd (k : ℕ) (s : SinSignal) :
    (SinSignal.takeSamples k s).2 = { s with x := s.x + (k : ℝ) * s.interval } := by
  induction k generalizing s with
  | zero =>
    simp [SinSignal.takeSamples]
  | succ n ih =>
    rw [SinSignal.takeSamples]
    simp only [SinSignal.next]
    rw [ih]
    congr 1
    push_cast
    ring_nf

theorem SinSignal.takeSamples_length (k : ℕ) (s : SinSignal) :
    (SinSignal.takeSamples k s).1.length = k := by
  rw [SinSignal.takeSamples_fst]
  simp

theorem SinSignal.takeSamples_one (s : SinSignal) :
    SinSignal.takeSamples 1 s = ([s.point], { s with x := s.x + s.interval }) := rfl

theorem take_new_fst (p c : ℝ) :
    (SinSignal.takeSamples WINDOW_SIZE (SinSignal.new 1 p c)).1
      = (List.range WINDOW_SIZE).map
          (fun (j : ℕ) => (signalAt p c ((0 + j : ℕ) : ℝ)).point) := by
  rw [SinSignal.takeSamples_fst]
  apply List.map_congr_left
  intro j _
  congr 1
  simp [SinSignal.new, signalAt]

theorem take_new_snd (p c : ℝ) :
    (SinSignal.takeSamples WINDOW_SIZE (SinSignal.new 1 p c)).2
      = signalAt p c ((WINDOW_SIZE + 0 : ℕ) : ℝ) := by
  rw [SinSignal.takeSamples_snd]
  simp [SinSignal.new, signalAt]

theorem App.new_eq : App.new = appAt 0 := by
  have h5 : (60 : ℝ) * 5 = 300 := by norm_num
  have h25 : (60 : ℝ) * 25 = 1500 := by norm_num
  have h30 : (60 : ℝ) * 30 = 1800 := by norm_num
  simp only [App.new, h5, h25, h30, take_new_fst, take_new_snd, appAt]
  norm_num

theorem tick_data_aux (p c : ℝ) (m n : ℕ) :
    ((List.range (n + 1)).map
        (fun (j : ℕ) => (signalAt p c ((m + j : ℕ) : ℝ)).point)).tail
      ++ [(signalAt p c ((n + 1 + m : ℕ) : ℝ)).point]
    = (List.range (n + 1)).map
        (fun (j : ℕ) => (signalAt p c ((m + 1 + j : ℕ) : ℝ)).point) := by
  conv_lhs => rw [List.range_succ_eq_map]
  conv_rhs => rw [List.range_succ]
  simp only [List.map_cons, List.tail_cons, List.map_map, List.map_append,
    List.map_nil]
  have hmap : ∀ j : ℕ,
      ((fun (j : ℕ) => (signalAt p c ((m + j : ℕ) : ℝ)).point) ∘ Nat.succ) j
        = (signalAt p c ((m + 1 + j : ℕ) : ℝ)).point := by
    intro j
    simp only [Function.comp_apply]
    have e : m + Nat.succ j = m + 1 + j := by omega
    rw [e]
  have hend : (signalAt p c ((n + 1 + m : ℕ) : ℝ)).point
      = (signalAt p c ((m + 1 + n : ℕ) : ℝ)).point := by
    have e : n + 1 + m = m + 1 + n := by omega
    rw [e]
  rw [List.map_congr_left (fun j _ => hmap j), hend]

theorem tick_data (p c : ℝ) (m : ℕ) :
    ((List.range WINDOW_SIZE).map
        (fun (j : ℕ) => (signalAt p c ((m + j : ℕ) : ℝ)).point)).tail
      ++ [(signalAt p c ((WINDOW_SIZE + m : ℕ) : ℝ)).point]
    = (List.range WINDOW_SIZE).map
        (fun (j : ℕ) => (signalAt p c ((m + 1 + j : ℕ) : ℝ)).point) :=
  tick_data_aux p c m 1799

theorem on_tick_appAt (m : ℕ) : (appAt m).on_tick = appAt (m + 1) := by
  simp only [App.on_tick, appAt, SinSignal.takeSamples_one, App.mk.injEq]
  refine ⟨?_, ?_, ?_, ?_, ?_, ?_, ?_⟩
  · simp only [signalAt, SinSignal.mk.injEq, and_true, true_and]
    push_cast
    ring_nf
  · exact tick_data 300 18 m
  · simp only [signalAt, SinSignal.mk.injEq, and_true, true_and]
    push_cast
    ring_nf
  · exact tick_data 1500 15 m
  · simp only [signalAt, SinSignal.mk.injEq, and_true, true_and]
    push_cast
    ring_nf
  · exact tick_data 1800 10 m
  · simp only [Prod.mk.injEq]
    constructor <;> push_cast <;> ring_nf

theorem iterate_on_tick (m : ℕ) : App.on_tick^[m] App.new = appAt m := by
  induction m with
  | zero => exact App.new_eq
  | succ n ih => rw [Function.iterate_succ_apply', ih, on_tick_appAt]

theorem appAt_window (m : ℕ) :
    (appAt m).window = (((m : ℕ) : ℝ), ((WINDOW_SIZE + m : ℕ) : ℝ)) := rfl

theorem tickStep_appAt (m : ℕ) (h : m ≠ 1799) :
    tickStep (appAt m) = appAt (m + 1) := by
  simp only [tickStep]
  rw [on_tick_appAt, if_neg]
  intro hc
  rw [appAt_window] at hc
  have hc2 : ((WINDOW_SIZE + (m + 1) : ℕ) : ℝ) = 3600 := hc
  have hc3 : WINDOW_SIZE + (m + 1) = 3600 := by exact_mod_cast hc2
  have : m = 1799 := by
    have hw : WINDOW_SIZE = 1800 := rfl
    omega
  exact h this

theorem tickStep_appAt_reset : tickStep (appAt 1799) = App.new := by
  simp only [tickStep]
  rw [on_tick_appAt, if_pos]
  rw [appAt_window]
  show ((WINDOW_SIZE + (1799 + 1) : ℕ) : ℝ) = 3600
  norm_num [WINDOW_SIZE]

theorem runTicks_le (m : ℕ) (hm : m ≤ 1799) : runTicks m App.new = appAt m := by
  induction m with
  | zero => exact App.new_eq
  | succ n ih =>
    rw [runTicks, ih (by omega)]
    exact tickStep_appAt n (by omega)

theorem runTicks_cycle : runTicks 1800 App.new = App.new := by
  rw [show (1800 : ℕ) = 1799 + 1 from rfl, runTicks, runTicks_le 1799 le_rfl]
  exact tickStep_appAt_reset

theorem runTicks_add (n m : ℕ) (a : App) :
    runTicks (n + m) a = runTicks m (runTicks n a) := by
  induction m with
  | zero => rfl
  | succ k ih => rw [show n + (k + 1) = (n + k) + 1 from rfl, runTicks, ih, runTicks]

theorem runTicks_mod (n : ℕ) : runTicks n App.new = appAt (n % 1800) := by
  induction n using Nat.strong_induction_on with
  | _ n ih =>
    by_cases h : n < 1800
    · rw [Nat.mod_eq_of_lt h]
      exact runTicks_le n (by omega)
    · have e : n % 1800 = (n - 1800) % 1800 := by omega
      have h1 : n = 1800 + (n - 1800) := by omega
      rw [e]
      conv_lhs => rw [h1]
      rw [runTicks_add, runTicks_cycle, ih (n - 1800) (by omega)]

theorem reset_iff (n : ℕ) :
    (App.on_tick (runTicks n App.new)).window.2 = (3600 : ℝ) ↔ (n + 1) % 1800 = 0 := by
  rw [runTicks_mod, on_tick_appAt, appAt_window]
  have hw : WINDOW_SIZE = 1800 := rfl
  constructor
  · intro hc
    have hc2 : ((WINDOW_SIZE + (n % 1800 + 1) : ℕ) : ℝ) = 3600 := hc
    have : WINDOW_SIZE + (n % 1800 + 1) = 3600 := by exact_mod_cast hc2
    omega
  · intro hc
    have h9 : n % 1800 = 1799 := by omega
    rw [h9]
    show ((WINDOW_SIZE + (1799 + 1) : ℕ) : ℝ) = 3600
    norm_num [hw]

theorem getD_map_range (f : ℕ → ℝ × ℝ) (n j : ℕ) (h : j < n) :
    ((List.range n).map f).getD j (0, 0) = f j := by
  rw [List.getD_eq_getElem ((List.range n).map f) (0, 0) (by simpa using h)]
  simp [h]

/-- C1: one call of `SinSignal::next` always yields a sample (`Some`, never
`None`, never ends the iteration) and advances the cursor by exactly the step
`interval`; for cursor `>= 0` the sample is
`(cursor, scale * sin((cursor - WINDOW_SIZE) * 2 * pi / period))`, and for
cursor `< 0` it is `(cursor, 0)`. -/
theorem C1_next_total_formula (s : SinSignal) :
    s.next.1.isSome = true
    ∧ s.next.2 = { s with x := s.x + s.interval }
    ∧ (0 ≤ s.x →
        s.next.1 = some (s.x,
          s.scale * Real.sin ((s.x - (WINDOW_SIZE : ℝ)) * 2 * Real.pi / s.period)))
    ∧ (s.x < 0 → s.next.1 = some (s.x, 0)) := by
  refine ⟨rfl, rfl, ?_, ?_⟩
  · intro h
    show some s.point = _
    rw [SinSignal.point_of_nonneg s h,
      mul_comm (Real.sin ((s.x - (WINDOW_SIZE : ℝ)) * 2 * Real.pi / s.period)) s.scale]
  · intro h
    show some s.point = _
    rw [SinSignal.point_of_neg s h]

/-- C1 witness: the formula branch at the fresh signal (cursor `0`) and the
clamp branch at cursor `-1`. -/
theorem C1_next_total_formula_witness :
    (0 : ℝ) ≤ (SinSignal.new 1 300 18).x
    ∧ (SinSignal.new 1 300 18).next.1
        = some ((SinSignal.new 1 300 18).x,
            (SinSignal.new 1 300 18).scale
              * Real.sin (((SinSignal.new 1 300 18).x - (WINDOW_SIZE : ℝ))
                  * 2 * Real.pi / (SinSignal.new 1 300 18).period))
    ∧ (signalAt 300 18 (-1)).x < 0
    ∧ (signalAt 300 18 (-1)).next.1 = some ((signalAt 300 18 (-1)).x, 0) :=
  ⟨le_refl 0,
   (C1_next_total_formula (SinSignal.new 1 300 18)).2.2.1 (le_refl 0),
   neg_one_lt_zero,
   (C1_next_total_formula (signalAt 300 18 (-1))).2.2.2 neg_one_lt_zero⟩

/-- C2: after any number of `on_tick` calls from `App::new()` every data
window still holds exactly `WINDOW_SIZE` samples, and each `on_tick` drops
exactly the first element of each window and appends exactly the one sample
drawn from the corresponding signal. -/
theorem C2_window_length (n : ℕ) :
    (App.on_tick^[n] App.new).data1.length = WINDOW_SIZE
    ∧ (App.on_tick^[n] App.new).data2.length = WINDOW_SIZE
    ∧ (App.on_tick^[n] App.new).data3.length = WINDOW_SIZE
    ∧ ∀ a : App,
        a.on_tick.data1 = a.data1.tail ++ [a.signal1.point]
        ∧ a.on_tick.data2 = a.data2.tail ++ [a.signal2.point]
        ∧ a.on_tick.data3 = a.data3.tail ++ [a.signal3.point] := by
  refine ⟨?_, ?_, ?_, fun a => ⟨rfl, rfl, rfl⟩⟩ <;>
    (rw [iterate_on_tick]; simp [appAt])

/-- C3: after `n` raw ticks and no reset the Session Clock is
`[n, WINDOW_SIZE + n]`; initialization (and hence any reset, which installs
`App::new()`) sets it to `[0, WINDOW_SIZE]`; every loop step either resets to
`App::new()` or just performs `on_tick`. -/
theorem C3_clock (n : ℕ) :
    (App.on_tick^[n] App.new).window = (((n : ℕ) : ℝ), (WINDOW_SIZE : ℝ) + ((n : ℕ) : ℝ))
    ∧ App.new.window = ((0 : ℝ), (WINDOW_SIZE : ℝ))
    ∧ ∀ a : App, tickStep a = App.new ∨ tickStep a = a.on_tick := by
  refine ⟨?_, rfl, ?_⟩
  · have hc : ((WINDOW_SIZE + n : ℕ) : ℝ) = (WINDOW_SIZE : ℝ) + ((n : ℕ) : ℝ) := by
      push_cast
      ring_nf
    rw [iterate_on_tick, appAt_window, hc]
  · intro a
    simp only [tickStep]
    by_cases h : a.on_tick.window.2 = 3600
    · left; rw [if_pos h]
    · right; rw [if_neg h]

/-- C4: from a fresh session, 1799 loop ticks perform no reset and leave the
clock at `[1799, 3599]`; the 1800th tick pushes the clock end to `3600`,
which triggers the reset: the state becomes a fresh `App::new()` whose clock
is `[0, 1800]` and whose three windows hold `WINDOW_SIZE` fresh samples drawn
at cursors `0, 1, ..., 1799` of newly constructed signals. -/
theorem C4_first_cycle :
    runTicks 1799 App.new = App.on_tick^[1799] App.new
    ∧ (runTicks 1799 App.new).window = ((1799 : ℝ), (3599 : ℝ))
    ∧ (App.on_tick (runTicks 1799 App.new)).window.2 = (3600 : ℝ)
    ∧ runTicks 1800 App.new = App.new
    ∧ App.new.window = ((0 : ℝ), (1800 : ℝ))
    ∧ App.new.data1 = (List.range WINDOW_SIZE).map
        (fun (j : ℕ) => (signalAt 300 18 ((0 + j : ℕ) : ℝ)).point)
    ∧ App.new.data2 = (List.range WINDOW_SIZE).map
        (fun (j : ℕ) => (signalAt 1500 15 ((0 + j : ℕ) : ℝ)).point)
    ∧ App.new.data3 = (List.range WINDOW_SIZE).map
        (fun (j : ℕ) => (signalAt 1800 10 ((0 + j : ℕ) : ℝ)).point) := by
  refine ⟨?_, ?_, ?_, runTicks_cycle, ?_, ?_, ?_, ?_⟩
  · rw [runTicks_le 1799 le_rfl, iterate_on_tick]
  · rw [runTicks_le 1799 le_rfl, appAt_window]
    show (((1799 : ℕ) : ℝ), ((WINDOW_SIZE + 1799 : ℕ) : ℝ)) = ((1799 : ℝ), (3599 : ℝ))
    norm_num [WINDOW_SIZE]
  · rw [(reset_iff 1799)]
  · show ((0 : ℝ), (WINDOW_SIZE : ℝ)) = ((0 : ℝ), (1800 : ℝ))
    norm_num [WINDOW_SIZE]
  · rw [App.new_eq]; rfl
  · rw [App.new_eq]; rfl
  · rw [App.new_eq]; rfl

/-- C5 counterexample: the claim puts the first reset at tick 3600, but the
reset condition `window[1] == 3600.0` already fires on tick 1800: the clock
end starts at 1800 and gains 1 per tick, so tick 1800 replaces the state with
a fresh `App::new()` (clock back to `[0, 1800]`), whereas 1800 resetless
ticks would have shown `[1800, 3600]`. -/
theorem C5_cex :
    (App.on_tick (runTicks 1799 App.new)).window.2 = (3600 : ℝ)
    ∧ runTicks 1800 App.new = App.new
    ∧ (runTicks 1800 App.new).window = ((0 : ℝ), (1800 : ℝ))
    ∧ (App.on_tick^[1800] App.new).window = ((1800 : ℝ), (3600 : ℝ))
    ∧ (1800 : ℕ) < 3600 := by
  refine ⟨?_, runTicks_cycle, ?_, ?_, by decide⟩
  · rw [reset_iff 1799]
  · rw [runTicks_cycle]
    show ((0 : ℝ), (WINDOW_SIZE : ℝ)) = ((0 : ℝ), (1800 : ℝ))
    norm_num [WINDOW_SIZE]
  · rw [iterate_on_tick, appAt_window]
    show (((1800 : ℕ) : ℝ), ((WINDOW_SIZE + 1800 : ℕ) : ℝ)) = ((1800 : ℝ), (3600 : ℝ))
    norm_num [WINDOW_SIZE]

/-- C5 amended: resets occur exactly on ticks 1800, 3600, 5400, ... — the
reset condition fires on tick `n + 1` iff `1800` divides `n + 1`, and the
loop state returns to a fresh `App::new()` exactly at those ticks. -/
theorem C5_amended_reset_ticks (n : ℕ) :
    ((App.on_tick (runTicks n App.new)).window.2 = (3600 : ℝ) ↔ (n + 1) % 1800 = 0)
    ∧ (runTicks (n + 1) App.new = App.new ↔ (n + 1) % 1800 = 0) := by
  refine ⟨reset_iff n, ?_, ?_⟩
  · intro h
    rw [runTicks_mod] at h
    have hw := congrArg (fun a => a.window.1) h
    rw [App.new_eq] at hw
    have h1 : (((n + 1) % 1800 : ℕ) : ℝ) = ((0 : ℕ) : ℝ) := hw
    have : (n + 1) % 1800 = 0 := by exact_mod_cast h1
    exact this
  · intro h
    rw [runTicks_mod, h, ← App.new_eq]

/-- C6 counterexample: at clock end bound `e = 125` the rendered label is
`"02:5"`, not `"02:05"`: the `format!` zero-pads only its first (minutes)
argument, so single-digit seconds stay unpadded. -/
theorem C6_cex : uiLabel 125 ≠ "02:05" := by decide

/-- C6 amended: the label is `MM:SS` with `MM = (e mod 1800) / 60` zero-padded
to two digits and `SS = e mod 60` unpadded; at `e = 125` it renders exactly
`"02:5"`. -/
theorem C6_amended_label :
    uiLabel 125 = "02:5" ∧ uiLabel 3599 = "29:59" ∧ uiLabel 0 = "00:0" := by
  refine ⟨by decide, by decide, by decide⟩

/-- C7: the Signal Generator is deterministic — two generators with identical
`(step, period, scale)` and identical starting cursor produce identical
sample sequences of every length. -/
theorem C7_deterministic (s t : SinSignal) (n : ℕ)
    (hx : s.x = t.x) (hi : s.interval = t.interval)
    (hp : s.period = t.period) (hc : s.scale = t.scale) :
    SinSignal.takeSamples n s = SinSignal.takeSamples n t := by
  have h : s = t := by
    cases s
    cases t
    simp_all
  rw [h]

/-- C7 witness: two independently constructed generators with the same
parameters and cursor. -/
theorem C7_deterministic_witness :
    SinSignal.takeSamples 5 (SinSignal.new 1 300 18)
      = SinSignal.takeSamples 5 (signalAt 300 18 0) :=
  C7_deterministic (SinSignal.new 1 300 18) (signalAt 300 18 0) 5 rfl rfl rfl rfl

/-- C8: at a nonnegative cursor with nonnegative scale the emitted amplitude
lies in `[-scale, scale]`; at a negative cursor (clamped leading region) it is
exactly `0`. -/
theorem C8_amplitude (s : SinSignal) :
    (0 ≤ s.x → 0 ≤ s.scale → -s.scale ≤ s.point.2 ∧ s.point.2 ≤ s.scale)
    ∧ (s.x < 0 → s.point.2 = 0) := by
  constructor
  · intro hx hc
    have hy : s.point.2
        = Real.sin ((s.x - (WINDOW_SIZE : ℝ)) * 2 * Real.pi / s.period) * s.scale := by
      rw [SinSignal.point_of_nonneg s hx]
    rw [hy]
    constructor
    · have h1 := mul_le_mul_of_nonneg_right
        (Real.neg_one_le_sin ((s.x - (WINDOW_SIZE : ℝ)) * 2 * Real.pi / s.period)) hc
      linarith
    · have h2 := mul_le_mul_of_nonneg_right
        (Real.sin_le_one ((s.x - (WINDOW_SIZE : ℝ)) * 2 * Real.pi / s.period)) hc
      linarith
  · intro hx
    rw [SinSignal.point_of_neg s hx]

/-- C8 witness: the fresh cursor with scale `1`, and the clamp at cursor `-1`. -/
theorem C8_amplitude_witness :
    -(signalAt 300 1 0).scale ≤ (signalAt 300 1 0).point.2
    ∧ (signalAt 300 1 0).point.2 ≤ (signalAt 300 1 0).scale
    ∧ (signalAt 300 1 (-1)).point.2 = 0 :=
  ⟨((C8_amplitude (signalAt 300 1 0)).1 (le_refl 0) zero_le_one).1,
   ((C8_amplitude (signalAt 300 1 0)).1 (le_refl 0) zero_le_one).2,
   (C8_amplitude (signalAt 300 1 (-1))).2 neg_one_lt_zero⟩

/-- C9: a session signal (`SinSignal::new` with step `1.0`, cursor `0`) has
cursor exactly `k` after `k` samples, the cursor is monotone non-decreasing,
and every produced sample has a nonnegative x-coordinate with the sine-branch
value — the defensive `cursor < 0` clamp is never taken. -/
theorem C9_cursor (p c : ℝ) (k : ℕ) :
    (SinSignal.takeSamples k (SinSignal.new 1 p c)).2.x = (k : ℝ)
    ∧ (∀ j l : ℕ, j ≤ l →
        (SinSignal.takeSamples j (SinSignal.new 1 p c)).2.x
          ≤ (SinSignal.takeSamples l (SinSignal.new 1 p c)).2.x)
    ∧ ∀ q ∈ (SinSignal.takeSamples k (SinSignal.new 1 p c)).1,
        0 ≤ q.1
        ∧ q.2 = Real.sin ((q.1 - (WINDOW_SIZE : ℝ)) * 2 * Real.pi / p) * c := by
  have hx : ∀ m : ℕ, (SinSignal.takeSamples m (SinSignal.new 1 p c)).2.x = (m : ℝ) := by
    intro m
    rw [SinSignal.takeSamples_snd]
    show (0 : ℝ) + (m : ℝ) * 1 = (m : ℝ)
    ring
  refine ⟨hx k, ?_, ?_⟩
  · intro j l hjl
    rw [hx j, hx l]
    exact_mod_cast hjl
  · intro q hq
    rw [SinSignal.takeSamples_fst] at hq
    obtain ⟨j, hj, rfl⟩ := List.mem_map.mp hq
    have hx0 : (0 : ℝ)
        ≤ (SinSignal.new 1 p c).x + (j : ℝ) * (SinSignal.new 1 p c).interval := by
      show (0 : ℝ) ≤ 0 + (j : ℝ) * 1
      simp
    rw [SinSignal.point_of_nonneg _ hx0]
    exact ⟨hx0, rfl⟩

/-- C9 witness: cursor value and monotonicity at lengths 2 and 3, and the
first produced sample. -/
theorem C9_cursor_witness :
    (SinSignal.takeSamples 3 (SinSignal.new 1 300 18)).2.x = ((3 : ℕ) : ℝ)
    ∧ (SinSignal.takeSamples 2 (SinSignal.new 1 300 18)).2.x
        ≤ (SinSignal.takeSamples 3 (SinSignal.new 1 300 18)).2.x
    ∧ (0 ≤ (SinSignal.new 1 300 18).point.1
        ∧ (SinSignal.new 1 300 18).point.2
            = Real.sin (((SinSignal.new 1 300 18).point.1 - (WINDOW_SIZE : ℝ))
                * 2 * Real.pi / 300) * 18) :=
  ⟨(C9_cursor 300 18 3).1,
   (C9_cursor 300 18 3).2.1 2 3 (by decide),
   (C9_cursor 300 18 3).2.2 (SinSignal.new 1 300 18).point (List.mem_cons_self _ _)⟩

/-- C10: every reachable loop state equals `appAt (n % 1800)`: both clock
bounds are the integers `n % 1800` and `WINDOW_SIZE + n % 1800`, each window
holds `WINDOW_SIZE` samples whose `j`-th x-coordinate is exactly
`window[0] + j` (so the x-values span `[window[0], window[1] - 1]` as exact
integers), and the exact equality test `window[1] == 3600.0` is satisfied at
some later tick — never skipped over. -/
theorem C10_alignment (n : ℕ) :
    runTicks n App.new = appAt (n % 1800)
    ∧ (runTicks n App.new).window
        = (((n % 1800 : ℕ) : ℝ), ((WINDOW_SIZE + n % 1800 : ℕ) : ℝ))
    ∧ (runTicks n App.new).data1.length = WINDOW_SIZE
    ∧ (runTicks n App.new).data2.length = WINDOW_SIZE
    ∧ (runTicks n App.new).data3.length = WINDOW_SIZE
    ∧ (∀ j : ℕ, j < WINDOW_SIZE →
        ((runTicks n App.new).data1.getD j (0, 0)).1
            = (runTicks n App.new).window.1 + (j : ℝ)
        ∧ ((runTicks n App.new).data2.getD j (0, 0)).1
            = (runTicks n App.new).window.1 + (j : ℝ)
        ∧ ((runTicks n App.new).data3.getD j (0, 0)).1
            = (runTicks n App.new).window.1 + (j : ℝ))
    ∧ ∃ k : ℕ, (App.on_tick (runTicks (n + k) App.new)).window.2 = (3600 : ℝ) := by
  have hrm := runTicks_mod n
  have halign : ∀ (p c : ℝ) (j : ℕ), j < WINDOW_SIZE →
      ((((List.range WINDOW_SIZE).map
          (fun (jj : ℕ) => (signalAt p c ((n % 1800 + jj : ℕ) : ℝ)).point)).getD
            j (0, 0)).1)
        = ((n % 1800 : ℕ) : ℝ) + (j : ℝ) := by
    intro p c j hj
    rw [getD_map_range _ _ _ hj, SinSignal.point_fst]
    show ((n % 1800 + j : ℕ) : ℝ) = ((n % 1800 : ℕ) : ℝ) + (j : ℝ)
    push_cast
    ring_nf
  refine ⟨hrm, ?_, ?_, ?_, ?_, ?_, ?_⟩
  · rw [hrm, appAt_window]
  · rw [hrm]; simp [appAt]
  · rw [hrm]; simp [appAt]
  · rw [hrm]; simp [appAt]
  · intro j hj
    rw [hrm]
    exact ⟨halign 300 18 j hj, halign 1500 15 j hj, halign 1800 10 j hj⟩
  · refine ⟨1799 - n % 1800, ?_⟩
    rw [reset_iff]
    omega

/-- C10 witness: the alignment at the initial state and index `0`. -/
theorem C10_alignment_witness :
    (0 : ℕ) < WINDOW_SIZE
    ∧ ((runTicks 0 App.new).data1.getD 0 (0, 0)).1
        = (runTicks 0 App.new).window.1 + ((0 : ℕ) : ℝ) :=
  ⟨by decide, ((C10_alignment 0).2.2.2.2.2.1 0 (by decide)).1⟩
